import Mathlib

/-!
Verification of the Maybe-monad tutorial in `monads.py`.

The source defines a two-variant optional container (`Just` / `Nothing`)
with `map`, `bind` and `MaybeReturn`, a list `ListReturn`, and two curried
directory lookups (`get_user_ufid`, `get_name`).  We embed those
definitions shallowly and prove the specified behavioural and algebraic
properties.  Since Lean functions are pure, claims of the form
"`f` is never invoked" are settled against a call-counting embedding of
the same control flow, where stage functions thread an explicit counter.
-/

namespace Monads

universe u v w

/-- Shallow embedding of the two classes `Just` and `Nothing` from
`monads.py` as a closed two-variant sum. -/
inductive Maybe (α : Type u) where
  | Just : α → Maybe α
  | Nothing : Maybe α
deriving DecidableEq, Repr

/-- Embedding of `Just.map` (line 12-13: `return Just(f(self.value))`) and
`Nothing.map` (line 27-28: `return Nothing()`). -/
def Maybe.map {α : Type u} {β : Type v} (m : Maybe α) (f : α → β) : Maybe β :=
  match m with
  | .Just x => .Just (f x)
  | .Nothing => .Nothing

/-- Embedding of `Just.bind` (line 15-16: `return f(self.value)`) and
`Nothing.bind` (line 30-31: `return Nothing()`). -/
def Maybe.bind {α : Type u} {β : Type v} (m : Maybe α) (f : α → Maybe β) : Maybe β :=
  match m with
  | .Just x => f x
  | .Nothing => .Nothing

/-- Embedding of `MaybeReturn` (line 33-34: `return Just(x)`). -/
def MaybeReturn {α : Type u} (x : α) : Maybe α :=
  Maybe.Just x

/-- Embedding of the `value` attribute set in the two `__init__` methods:
`Just.__init__` stores the argument (line 7), `Nothing.__init__` stores the
Python sentinel `None` (line 22), modelled as `Option.none`.  Attribute
access is total in Python: reading `.value` on either variant returns,
it never raises. -/
def Maybe.value {α : Type u} : Maybe α → Option α
  | .Just x => some x
  | .Nothing => none

/-- Call-counting embedding of `bind`, same control flow as lines 15-16
and 30-31: stage functions thread an explicit counter, so the count of
invocations performed is observable.  A pure stage `f` instrumented as
`fun x c => (f x, c + 1)` bumps the counter exactly when it is called. -/
def Maybe.bindC {α : Type u} {β : Type v} (m : Maybe α)
    (f : α → Nat → Maybe β × Nat) (c : Nat) : Maybe β × Nat :=
  match m with
  | .Just x => f x c
  | .Nothing => (.Nothing, c)

/-- Call-counting embedding of `map`, same control flow as lines 12-13
and 27-28: in the `Just` branch the function is applied once and its
result re-wrapped, in the `Nothing` branch it is not applied at all. -/
def Maybe.mapC {α : Type u} {β : Type v} (m : Maybe α)
    (f : α → Nat → β × Nat) (c : Nat) : Maybe β × Nat :=
  match m with
  | .Just x =>
      let r := f x c
      (.Just r.1, r.2)
  | .Nothing => (.Nothing, c)

/-- Chain of `bind` calls (as in lines 177-199 of the source), in the
call-counting embedding: each stage is fed the value and counter produced
by the previous one. -/
def chainBindC {α : Type u} (m : Maybe α)
    (fs : List (α → Nat → Maybe α × Nat)) (c : Nat) : Maybe α × Nat :=
  match fs with
  | [] => (m, c)
  | f :: rest =>
      let r := Maybe.bindC m f c
      chainBindC r.1 rest r.2

/-- Embedding of `ListReturn` (line 222-223: `return [x]`). -/
def ListReturn {α : Type u} (x : α) : List α :=
  [x]

/-- Modelled from the spec: `SequenceValue.bind` does not appear in
`monads.py` (only `ListReturn` and comments about the list context do).
Per §4.2 it "applies `f` to every element of `self`, producing a sequence
of sequences, then concatenates them in order (flattening exactly one
level — never recursively)". -/
def SequenceValue.bind {α : Type u} {β : Type v} (m : List α) (f : α → List β) : List β :=
  (m.map f).flatten

/-- Record shape of the `directory` entries (lines 87-90): each person is
a fixed mapping of the field names `glid`, `ufid`, `name` to strings. -/
structure Person where
  glid : String
  ufid : String
  name : String
deriving DecidableEq, Repr

/-- Embedding of the inner closure `find_ufid` of `get_user_ufid`
(lines 101-105): scan `dir` in order, return `Just(person["ufid"])` for
the first person whose `glid` field equals `gl`, else `Nothing()`. -/
def find_ufid (dir : List Person) (gl : String) : Maybe String :=
  match dir with
  | [] => .Nothing
  | person :: rest =>
      if person.glid = gl then .Just person.ufid else find_ufid rest gl

/-- Embedding of the curried builder `get_user_ufid` (lines 100-106):
applied to a table it returns the single-argument lookup closure. -/
def get_user_ufid (dir : List Person) : String → Maybe String :=
  fun gl => find_ufid dir gl

/-- Embedding of the inner closure `find_name` of `get_name`
(lines 162-166): scan `dir` in order, return `Just(person["name"])` for
the first person whose `ufid` field equals `id`, else `Nothing()`. -/
def find_name (dir : List Person) (uf : String) : Maybe String :=
  match dir with
  | [] => .Nothing
  | person :: rest =>
      if person.ufid = uf then .Just person.name else find_name rest uf

/-- Embedding of the curried builder `get_name` (lines 161-167). -/
def get_name (dir : List Person) : String → Maybe String :=
  fun uf => find_name dir uf

/-- Embedding of the `directory` table (lines 87-90). -/
def directory : List Person :=
  [⟨"albert", "00000000", "Albert Alligator"⟩,
   ⟨"alberta", "11111111", "Alberta Alligator"⟩]

/-- Written from the spec's words (§4.4), for comparison with the source
lookups: the result is `Present` of the result field of the first record
(`List.find?`) whose key field equals the given key, `Absent` otherwise. -/
def lookupSpec (keyOf resOf : Person → String) (table : List Person)
    (k : String) : Maybe String :=
  match table.find? (fun p => keyOf p == k) with
  | some p => .Just (resOf p)
  | none => .Nothing

theorem find_ufid_eq_lookupSpec (dir : List Person) (gl : String) :
    find_ufid dir gl = lookupSpec Person.glid Person.ufid dir gl := by
  induction dir with
  | nil => rfl
  | cons p rest ih =>
      by_cases h : p.glid = gl
      · simp [find_ufid, lookupSpec, List.find?, h]
      · have hb : (p.glid == gl) = false := by simpa using h
        simp [find_ufid, lookupSpec, List.find?, h, hb, ih]

theorem find_name_eq_lookupSpec (dir : List Person) (uf : String) :
    find_name dir uf = lookupSpec Person.ufid Person.name dir uf := by
  induction dir with
  | nil => rfl
  | cons p rest ih =>
      by_cases h : p.ufid = uf
      · simp [find_name, lookupSpec, List.find?, h]
      · have hb : (p.ufid == uf) = false := by simpa using h
        simp [find_name, lookupSpec, List.find?, h, hb, ih]

/-- C1: `bind` on `Present(x)` returns `f x` verbatim (no re-wrapping,
hence never a nested container); on `Absent` it returns `Absent` and,
in the call-counting embedding, leaves the counter untouched for every
instrumented stage `g` — the stage function is never invoked. -/
theorem bind_present_verbatim_absent_short_circuits {α β : Type}
    (x : α) (f : α → Maybe β) (g : α → Nat → Maybe β × Nat) (c : Nat) :
    (Maybe.Just x).bind f = f x ∧
    (Maybe.Nothing : Maybe α).bind f = Maybe.Nothing ∧
    Maybe.bindC (Maybe.Nothing : Maybe α) g c = (Maybe.Nothing, c) :=
  ⟨rfl, rfl, rfl⟩

/-- C2 counterexample: extracting the inner value from `Absent` neither
fails nor is unrepresentable — `Nothing.__init__` (line 22) stores the
sentinel `None` in the `value` attribute, and attribute access silently
returns it. -/
theorem value_absent_is_silent_none_sentinel :
    (Maybe.Nothing : Maybe String).value = (none : Option String) ∧
    (Maybe.Just "albert").value = some "albert" :=
  ⟨rfl, rfl⟩

/-- C2 amended: attempting to extract the inner value from an `Absent`
container does not fail loudly and is representable — it silently
returns the sentinel `None` that the `Nothing` constructor stores in the
`value` attribute. -/
theorem value_absent_returns_none (α : Type u) :
    (Maybe.Nothing : Maybe α).value = none :=
  rfl

/-- C3: the sequence `bind` applies `f` to each element in order and
concatenates the results, flattening exactly one level: it satisfies the
cons/nil recurrence, maps `[1,2,3]` with `x -> [x, x*10]` to
`[1,10,2,20,3,30]`, and does not flatten recursively (binding the unit
over a list of lists leaves the inner lists intact). -/
theorem sequence_bind_flattens_one_level {α β : Type} (x : α) (xs : List α)
    (f : α → List β) :
    SequenceValue.bind [1, 2, 3] (fun n => [n, n * 10]) = [1, 10, 2, 20, 3, 30] ∧
    SequenceValue.bind (x :: xs) f = f x ++ SequenceValue.bind xs f ∧
    SequenceValue.bind ([] : List α) f = [] ∧
    SequenceValue.bind [[1, 2], [3]] ListReturn = [[1, 2], [3]] :=
  ⟨rfl, rfl, rfl, rfl⟩

/-- C4: associativity for the optional container — binding `f` then `g`
equals binding the composite stage, in both the `Just` and the `Nothing`
case. -/
theorem maybe_bind_assoc {α β γ : Type} (m : Maybe α)
    (f : α → Maybe β) (g : β → Maybe γ) :
    (m.bind f).bind g = m.bind fun x => (f x).bind g := by
  cases m <;> rfl

/-- C5: left identity — lifting `x` with `MaybeReturn` and binding `f`
yields exactly `f x`. -/
theorem maybe_left_identity {α β : Type} (x : α) (f : α → Maybe β) :
    (MaybeReturn x).bind f = f x :=
  rfl

/-- C6: right identity — binding `MaybeReturn` returns the container
unchanged, in both the `Just` and the `Nothing` case. -/
theorem maybe_right_identity {α : Type} (m : Maybe α) :
    m.bind MaybeReturn = m := by
  cases m <;> rfl

/-- C7: map/bind equivalence — `map` agrees with binding the
unit-composed stage, for every container and every function. -/
theorem maybe_map_eq_bind_return {α β : Type} (m : Maybe α) (f : α → β) :
    m.map f = m.bind fun x => MaybeReturn (f x) := by
  cases m <;> rfl

/-- C8: absence is absorbing — a chain of counted binds whose state has
become `Absent` yields `Absent` with the call counter unchanged (no
later stage function is ever invoked), and any chain splits at any point
into the prefix run followed by the suffix run from the prefix's result,
so this applies as soon as any stage returns `Absent`. -/
theorem absence_absorbing_in_bind_chains {α : Type}
    (fs : List (α → Nat → Maybe α × Nat)) (c : Nat) :
    chainBindC (Maybe.Nothing : Maybe α) fs c = (Maybe.Nothing, c) ∧
    ∀ (m : Maybe α) (gs : List (α → Nat → Maybe α × Nat)),
      chainBindC m (fs ++ gs) c =
        chainBindC (chainBindC m fs c).1 gs (chainBindC m fs c).2 := by
  constructor
  · induction fs generalizing c with
    | nil => rfl
    | cons f rest ih => simpa [chainBindC, Maybe.bindC] using ih c
  · intro m gs
    induction fs generalizing m c with
    | nil => rfl
    | cons f rest ih => simp [chainBindC, ih]

/-- C9: the curried lookup builders scan the table in insertion order and
return `Present` of the result field of the first record whose key field
equals the given key (`List.find?`), `Absent` when no record matches; on
a table whose two records share a key, the first record's result wins. -/
theorem lookup_returns_first_match (dir : List Person) (gl uf : String) :
    get_user_ufid dir gl = lookupSpec Person.glid Person.ufid dir gl ∧
    get_name dir uf = lookupSpec Person.ufid Person.name dir uf ∧
    get_user_ufid [⟨"a", "1", "n1"⟩, ⟨"a", "2", "n2"⟩] "a" = Maybe.Just "1" ∧
    get_user_ufid directory "nope" = Maybe.Nothing :=
  ⟨find_ufid_eq_lookupSpec dir gl, find_name_eq_lookupSpec dir uf, rfl, rfl⟩

/-- C10: `map` on `Present(x)` returns `Present (f x)` with the stage
invoked exactly once in the call-counting embedding (so at most once);
on `Absent` it returns `Absent` with the counter untouched for every
instrumented stage `g` — the function is never invoked. -/
theorem map_present_once_absent_never {α β : Type}
    (x : α) (f : α → β) (g : α → Nat → β × Nat) (c : Nat) :
    (Maybe.Just x).map f = Maybe.Just (f x) ∧
    (Maybe.Nothing : Maybe α).map f = Maybe.Nothing ∧
    Maybe.mapC (Maybe.Just x) (fun a n => (f a, n + 1)) c = (Maybe.Just (f x), c + 1) ∧
    Maybe.mapC (Maybe.Nothing : Maybe α) g c = (Maybe.Nothing, c) :=
  ⟨rfl, rfl, rfl, rfl⟩

end Monads
